import Mathlib

/-!
Verification of the timeline declutter-and-layout engine of the med-tracker
application (`src/components/TimelineHistory.jsx`).

Numbers that are floating point in the JavaScript source are modelled as
rationals (`ℚ`); JavaScript `Date` values are modelled as a calendar day
index together with hour / minute / second fields.
-/

namespace MedTracker

/-- A point in time: calendar day index plus time-of-day fields, mirroring
what the source reads off a JavaScript `Date` (`getHours`, `getMinutes`,
seconds participate in timestamp arithmetic and ordering). -/
structure Timestamp where
  day : Int
  hour : Nat
  minute : Nat
  second : Nat
deriving DecidableEq, Repr

/-- A well-formed wall-clock time, as every JavaScript `Date` yields. -/
def Timestamp.Valid (t : Timestamp) : Prop :=
  t.hour < 24 ∧ t.minute < 60 ∧ t.second < 60

instance (t : Timestamp) : Decidable t.Valid :=
  inferInstanceAs (Decidable (t.hour < 24 ∧ t.minute < 60 ∧ t.second < 60))

/-- Absolute time in seconds, the order used by `b.timestamp - a.timestamp`
comparators in the source. -/
def Timestamp.toSeconds (t : Timestamp) : Int :=
  t.day * 86400 + (t.hour * 3600 + t.minute * 60 + t.second : Nat)

/-- Function modelling `date.getHours() * 60 + date.getMinutes()` (TimelineHistory.jsx line 231). -/
def minutesOfDay (t : Timestamp) : Nat :=
  t.hour * 60 + t.minute

/-- Constant `BASE_DAY_HEIGHT_PX` (line 96): base height for 24 hours in pixels. -/
def BASE_DAY_HEIGHT_PX : ℚ := 1440

/-- Function `getTimeTop` (lines 230-235): converts a time to a pixel position,
inverted (00:00 at the bottom) and scaled by the zoom level. -/
def getTimeTop (zoomLevel : ℚ) (date : Timestamp) : ℚ :=
  (BASE_DAY_HEIGHT_PX - (minutesOfDay date : ℚ)) * zoomLevel

/-- The tick/label interval table (lines 550-596): given the zoom level,
returns `(tickInterval, labelInterval)` in minutes. -/
def tickPlan (zoomLevel : ℚ) : ℚ × ℚ :=
  if zoomLevel ≤ 0.375 then (60, 180)
  else if zoomLevel ≤ 0.625 then (30, 180)
  else if zoomLevel ≤ 0.875 then (30, 180)
  else if zoomLevel ≤ 1.375 then (15, 120)
  else if zoomLevel ≤ 1.75 then (15, 120)
  else if zoomLevel ≤ 2.25 then (15, 60)
  else if zoomLevel ≤ 2.75 then (15, 30)
  else if zoomLevel ≤ 3.25 then (10, 30)
  else if zoomLevel ≤ 3.75 then (10, 30)
  else if zoomLevel ≤ 4.25 then (5, 15)
  else if zoomLevel ≤ 4.75 then (5, 15)
  else if zoomLevel ≤ 5.75 then (1, 10)
  else if zoomLevel ≤ 7 then (1, 10)
  else if zoomLevel ≤ 10 then (1, 5)
  else (1, 1)

/-- An intake record as delivered by the event store (id, patient lane,
subtype tag, dosage string, unit, timestamp).  A missing dosage/subtype is
modelled with `Option`/the empty string. -/
structure Intake where
  id : String
  patientId : String
  subtype : String
  dosage : Option String
  unit : String
  timestamp : Timestamp
deriving DecidableEq, Repr

/-! ### Dosage normalization (`toMg`, lines 271-275) -/

/-- Decimal digits accumulated into a natural number. -/
def digitsNat (acc : ℕ) : List Char → ℕ
  | [] => acc
  | c :: cs => digitsNat (acc * 10 + (c.toNat - 48)) cs

/-- Character-level part of the JavaScript `parseFloat` model: skip
leading spaces, read an optional sign, then digits with an optional
fractional part; `none` when no leading digit can be read (JavaScript
`NaN`).  Returns (negative?, integer digits, fraction digits, fraction
length). -/
def parseParts (s : String) : Option (Bool × ℕ × ℕ × ℕ) :=
  let cs := s.toList.dropWhile (fun c => c = ' ')
  let neg := cs.headD 'x' == '-'
  let rest := if cs.headD 'x' == '-' || cs.headD 'x' == '+' then cs.tail else cs
  let intPart := rest.takeWhile Char.isDigit
  let rest2 := rest.dropWhile Char.isDigit
  let fracPart :=
    if rest2.headD 'x' == '.' then rest2.tail.takeWhile Char.isDigit else []
  if intPart.isEmpty && fracPart.isEmpty then none
  else some (neg, digitsNat 0 intPart, digitsNat 0 fracPart, fracPart.length)

/-- Model of JavaScript `parseFloat` on decimal notation, assembling the
parsed parts into a rational. -/
def parseFloatQ (s : String) : Option ℚ :=
  match parseParts s with
  | none => none
  | some (neg, ip, fp, fl) =>
    let mag : ℚ := (ip : ℚ) + (fp : ℚ) / (10 ^ fl : ℚ)
    some (if neg then -mag else mag)

/-- Function `toMg` (lines 272-275): `parseFloat(dosage) || 0`, times 20 when the
unit is `"ml"`. -/
def toMg (dosage : Option String) (u : String) : ℚ :=
  let val := (dosage.bind parseFloatQ).getD 0
  if u = "ml" then val * 20 else val

/-! ### Day grouping (`groupedByDay`, lines 129-147) -/

/-- One bucket of the day grouping: a calendar day plus the intakes whose
timestamp falls on it. -/
structure DayBucket where
  date : Int
  intakes : List Intake
deriving DecidableEq, Repr

/-- One step of the `intakes.forEach` loop of `groupedByDay`: append the
intake to the bucket of its day, creating the bucket if absent (JavaScript
object insertion order is modelled by appending new buckets). -/
def addIntake (groups : List DayBucket) (i : Intake) : List DayBucket :=
  if groups.any (fun b => b.date == i.timestamp.day) then
    groups.map (fun b =>
      if b.date == i.timestamp.day then ⟨b.date, b.intakes ++ [i]⟩ else b)
  else groups ++ [⟨i.timestamp.day, [i]⟩]

/-- Descending-by-date order used by the final sort of `groupedByDay`
(`(a, b) => b.date - a.date`). -/
def dateDesc (a b : DayBucket) : Prop := b.date ≤ a.date

instance : DecidableRel dateDesc := fun a b =>
  inferInstanceAs (Decidable (b.date ≤ a.date))

/-- Function `groupedByDay` (lines 129-147): start with an empty bucket for today,
insert every intake into the bucket of its day, then sort buckets by date
descending.  (Bucket dates are pairwise distinct, so any comparison sort
models `Array.prototype.sort` here; a stable insertion sort is used.) -/
def groupedByDay (intakes : List Intake) (today : Int) : List DayBucket :=
  let groups := intakes.foldl addIntake [⟨today, []⟩]
  List.insertionSort dateDesc groups

/-! ### Clustering (`computeClusters`, lines 280-328) -/

/-- Constant `CLUSTER_THRESHOLD_PX` (line 7). -/
def CLUSTER_THRESHOLD_PX : ℚ := 38

/-- An intake together with its assigned pixel position (`withPos`,
line 290). -/
structure PosIntake where
  intake : Intake
  topPx : ℚ
deriving DecidableEq, Repr

/-- Output item of the clusterer: a single intake or a collapsed cluster
with its representative position, aggregate milligrams and latest
timestamp. -/
inductive ClusterItem where
  | single (intake : Intake) (topPx : ℚ)
  | cluster (intakes : List Intake) (topPx : ℚ) (totalMg : ℚ) (lastTime : Timestamp)
deriving DecidableEq, Repr

/-- The intakes carried by a cluster item. -/
def ClusterItem.members : ClusterItem → List Intake
  | .single i _ => [i]
  | .cluster is _ _ _ => is

/-- Whether the item is a collapsed cluster. -/
def ClusterItem.isCluster : ClusterItem → Bool
  | .single _ _ => false
  | .cluster _ _ _ _ => true

/-- Descending-timestamp order used by the initial sort of `computeClusters`
(`(a, b) => b.timestamp - a.timestamp`, line 285). -/
def tsDesc (a b : Intake) : Prop :=
  b.timestamp.toSeconds ≤ a.timestamp.toSeconds

instance : DecidableRel tsDesc := fun a b =>
  inferInstanceAs (Decidable (b.timestamp.toSeconds ≤ a.timestamp.toSeconds))

instance : IsTotal Intake tsDesc :=
  ⟨fun a b => le_total b.timestamp.toSeconds a.timestamp.toSeconds⟩

instance : IsTrans Intake tsDesc :=
  ⟨fun _ _ _ h h' => le_trans h' h⟩

/-- Newest-first stable sort of the intakes of one lane (line 285; modern
`Array.prototype.sort` is stable, matched by insertion sort). -/
def sortDescTimestamp (l : List Intake) : List Intake :=
  List.insertionSort tsDesc l

/-- The greedy grouping loop of `computeClusters` (lines 294-324): `grp`
is the current group, newest absorbed member first (that is, reversed
group, so its head is the member absorbed last); `rest` is the unscanned
remainder.  The next item is absorbed while its gap to that member is below
the threshold. -/
def clusterGo : List PosIntake → List PosIntake → List (List PosIntake)
  | grp, [] => [grp.reverse]
  | grp, x :: rest =>
    match grp with
    | [] => clusterGo [x] rest
    | last :: _ =>
      if x.topPx - last.topPx < CLUSTER_THRESHOLD_PX then
        clusterGo (x :: grp) rest
      else
        grp.reverse :: clusterGo [x] rest

/-- The consecutive groups produced by scanning a positioned lane list. -/
def chunks : List PosIntake → List (List PosIntake)
  | [] => []
  | x :: rest => clusterGo [x] rest

/-- Emission of one closed group (lines 308-324): size 1 becomes a single,
larger groups become a cluster with mean position, summed milligrams, and
the timestamp of the first (newest) member as `lastTime`.  (The empty case is
unreachable: the scan only closes nonempty groups.) -/
def emit : List PosIntake → ClusterItem
  | [] => .cluster [] 0 0 ⟨0, 0, 0, 0⟩
  | [p] => .single p.intake p.topPx
  | p :: q :: t =>
    let g := p :: q :: t
    .cluster (g.map (·.intake))
      ((g.map (·.topPx)).sum / (g.length : ℚ))
      ((g.map (fun r => toMg r.intake.dosage r.intake.unit)).sum)
      p.intake.timestamp

/-- Function `computeClusters` (lines 280-328): filter the intakes of one patient,
sort them newest first, assign pixel positions, and run the greedy
clustering scan. -/
def computeClusters (dayIntakes : List Intake) (patientId : String)
    (zoomLevel : ℚ) : List ClusterItem :=
  (chunks ((sortDescTimestamp (dayIntakes.filter (fun i => i.patientId == patientId))).map
    (fun i => PosIntake.mk i (getTimeTop zoomLevel i.timestamp)))).map emit

/-! ### Layout solver (`solveLayout`, lines 19-49) -/

/-- Constant `PANEL_H` (line 9): approximate rendered height of one panel card. -/
def PANEL_H : ℚ := 36

/-- Constant `CONNECTOR_THRESHOLD_PX` (line 11). -/
def CONNECTOR_THRESHOLD_PX : ℚ := 4

/-- Tail of the forward push-apart sweep (lines 33-36): with `overlap =
prev + PANEL_H - x`, a positive overlap pushes the panel down by that
amount; `prev` is the already processed previous panel. -/
def fwdFrom (prev : ℚ) : List ℚ → List ℚ
  | [] => []
  | x :: xs =>
    let x' := if 0 < prev + PANEL_H - x then x + (prev + PANEL_H - x) else x
    x' :: fwdFrom x' xs

/-- Forward push-apart sweep over the whole panel list (index 0 is left
untouched). -/
def pushApartForward : List ℚ → List ℚ
  | [] => []
  | x :: xs => x :: fwdFrom x xs

/-- Backward push-apart sweep (lines 38-41): processed right to left; with
`overlap = x + PANEL_H - next`, a positive overlap pushes the panel up by
that amount, where `next` is the already processed following panel. -/
def pushApartBackward : List ℚ → List ℚ
  | [] => []
  | [x] => [x]
  | x :: y :: xs =>
    match pushApartBackward (y :: xs) with
    | [] => [x]
    | y' :: rest =>
      (if 0 < x + PANEL_H - y' then x - (x + PANEL_H - y') else x) :: y' :: rest

/-- Damped pull toward the true positions (lines 43-45):
`panels[i] += (dotY_i - panels[i]) * 0.08`. -/
def pullToward (dots panels : List ℚ) : List ℚ :=
  List.zipWith (fun d p => p + (d - p) * (8 / 100)) dots panels

/-- One relaxation pass (lines 31-46): forward sweep, backward sweep, then
the damped pull. -/
def relaxPass (dots : List ℚ) (panels : List ℚ) : List ℚ :=
  pullToward dots (pushApartBackward (pushApartForward panels))

/-- Function `solveLayout` (lines 19-49), reduced to positions: given the `dotY`
values of the items (pre-sorted ascending), return the `panelY` values.
Zero items yield nothing, one item is returned untouched; otherwise seed a
contiguous stack of pitch `PANEL_H` centred on the centroid and run 40
relaxation passes. -/
def solveLayout (dots : List ℚ) : List ℚ :=
  match dots with
  | [] => []
  | [d] => [d]
  | _ =>
    let n := dots.length
    let centroid := dots.sum / (n : ℚ)
    let half := ((n : ℚ) - 1) * PANEL_H / 2
    let seed := (List.range n).map (fun (idx : ℕ) => centroid - half + (idx : ℚ) * PANEL_H)
    (relaxPass dots)^[40] seed

/-- Adjacent panels are separated by at least `s`. -/
def GapsGE (s : ℚ) (l : List ℚ) : Prop :=
  l.Chain' (fun a b => a + s ≤ b)

instance (s : ℚ) (l : List ℚ) : Decidable (GapsGE s l) :=
  inferInstanceAs (Decidable (l.Chain' (fun a b => a + s ≤ b)))

/-! ### Render side (`renderPatientSide` / `renderCard`, lines 783-1077) -/

/-- Key under which the expansion of a cluster is recorded and tested
(lines 957 and 978): the member ids joined with `"_"`, in member order. -/
def clusterKey (intakes : List Intake) : String :=
  String.intercalate "_" (intakes.map (·.id))

/-- Predicate `isNO` (line 784): an intake rendered in the faded centred style. -/
def isNO (i : Intake) : Bool :=
  i.patientId == "NO" || i.subtype == "LOST"

/-- Function `noIntakes` (lines 1063-1065): the LOST / NO intakes of a day, which
are rendered individually. -/
def noIntakes (dayIntakes : List Intake) : List Intake :=
  dayIntakes.filter (fun i => i.patientId == "NO" || i.subtype == "LOST")

/-- The `(dotY, panelY)` pairs with which `noIntakes` are rendered
(lines 1072-1074): both coordinates are the true position of the intake. -/
def noIntakesRender (zoomLevel : ℚ) (dayIntakes : List Intake) : List (ℚ × ℚ) :=
  (noIntakes dayIntakes).map
    (fun i => (getTimeTop zoomLevel i.timestamp, getTimeTop zoomLevel i.timestamp))

/-- Whether `renderCard` draws a connector line (lines 803 and 814):
only when the panel is displaced beyond the threshold and the intake is
not a NO/LOST one. -/
def connectorDrawn (i : Intake) (dotY panelY : ℚ) : Bool :=
  decide (CONNECTOR_THRESHOLD_PX < |panelY - dotY|) && !(isNO i)

/-! ### Specification-side definitions and concrete witnesses -/

/-- Modelled from the spec: dosage normalization as the specification
words it — a dosage with unit `"ml"` is converted to milligrams by
multiplying by exactly 20, any other unit passes the numeric value
through unchanged, and an unparseable or missing dosage counts as 0. -/
def toMgSpec (dosage : Option String) (u : String) : ℚ :=
  match dosage.bind parseFloatQ with
  | none => 0
  | some v => if u = "ml" then v * 20 else v

/-- Adjacent display positions differ by at least `s` in absolute value
(the separation form used by the layout claims). -/
def SepGE (s : ℚ) (l : List ℚ) : Prop :=
  l.Chain' (fun a b => s ≤ |b - a|)

instance (s : ℚ) (l : List ℚ) : Decidable (SepGE s l) :=
  inferInstanceAs (Decidable (l.Chain' (fun a b => s ≤ |b - a|)))

/-- Executable check for `GapsGE` (used to evaluate concrete layouts). -/
def gapsGEb (s : ℚ) : List ℚ → Bool
  | [] => true
  | [_] => true
  | a :: b :: t => decide (a + s ≤ b) && gapsGEb s (b :: t)

/-- Executable check for `SepGE` (used to evaluate concrete layouts). -/
def sepGEb (s : ℚ) : List ℚ → Bool
  | [] => true
  | [_] => true
  | a :: b :: t => decide (s ≤ |b - a|) && sepGEb s (b :: t)

/-- Example intake, patient AH at 12:00. -/
def evA : Intake := ⟨"a", "AH", "", some "1", "mg", ⟨0, 12, 0, 0⟩⟩

/-- Example intake, patient AH at 12:01. -/
def evB : Intake := ⟨"b", "AH", "", some "2", "mg", ⟨0, 12, 1, 0⟩⟩

/-- Example intake with id `"a"` but the 12:01 slot (timestamps of `evA`
and `evB` exchanged). -/
def evASwap : Intake := ⟨"a", "AH", "", some "1", "mg", ⟨0, 12, 1, 0⟩⟩

/-- Example intake with id `"b"` but the 12:00 slot. -/
def evBSwap : Intake := ⟨"b", "AH", "", some "2", "mg", ⟨0, 12, 0, 0⟩⟩

/-- Example LOST-subtype intake carried by patient lane AH. -/
def evLost : Intake := ⟨"L1", "AH", "LOST", some "1", "mg", ⟨0, 12, 0, 0⟩⟩

/-- Example plain AH intake one minute after `evLost`. -/
def evNear : Intake := ⟨"n1", "AH", "", some "2", "mg", ⟨0, 12, 1, 0⟩⟩

/-- Example intake sharing the exact timestamp of `evA`. -/
def evTwin : Intake := ⟨"t1", "AH", "", some "3", "mg", ⟨0, 12, 0, 0⟩⟩

/-- Example intake on calendar day 0 (used with `today = 2`). -/
def evDay0 : Intake := ⟨"e0", "AH", "", some "1", "mg", ⟨0, 10, 0, 0⟩⟩

/-- Example intake with patient lane NO. -/
def evNO : Intake := ⟨"no1", "NO", "", some "1", "mg", ⟨0, 11, 0, 0⟩⟩

/-! ## Lemmas about the greedy clustering scan -/

theorem clusterGo_flatten (rest : List PosIntake) :
    ∀ grp : List PosIntake, (clusterGo grp rest).flatten = grp.reverse ++ rest := by
  induction rest with
  | nil => intro grp; simp [clusterGo]
  | cons x rest ih =>
    intro grp
    cases grp with
    | nil => simpa [clusterGo] using ih [x]
    | cons last g =>
      by_cases h : x.topPx - last.topPx < CLUSTER_THRESHOLD_PX
      · simp only [clusterGo, h, if_true]
        rw [ih (x :: last :: g)]
        simp
      · simp only [clusterGo, h, if_false]
        rw [List.flatten_cons, ih [x]]
        simp

theorem clusterGo_ne_nil (rest : List PosIntake) :
    ∀ grp : List PosIntake, grp ≠ [] →
      ∀ c ∈ clusterGo grp rest, c ≠ [] := by
  induction rest with
  | nil =>
    intro grp hgrp c hc
    simp only [clusterGo, List.mem_singleton] at hc
    subst hc
    simpa using hgrp
  | cons x rest ih =>
    intro grp hgrp c hc
    cases grp with
    | nil => exact absurd rfl hgrp
    | cons last g =>
      by_cases h : x.topPx - last.topPx < CLUSTER_THRESHOLD_PX
      · simp only [clusterGo, h, if_true] at hc
        exact ih (x :: last :: g) (by simp) c hc
      · simp only [clusterGo, h, if_false, List.mem_cons] at hc
        rcases hc with rfl | hc
        · simp
        · exact ih [x] (by simp) c hc

theorem chunks_flatten (l : List PosIntake) : (chunks l).flatten = l := by
  cases l with
  | nil => rfl
  | cons x rest => simpa [chunks] using clusterGo_flatten rest [x]

theorem chunks_ne_nil {l : List PosIntake} {c : List PosIntake}
    (hc : c ∈ chunks l) : c ≠ [] := by
  cases l with
  | nil => simp [chunks] at hc
  | cons x rest => exact clusterGo_ne_nil rest [x] (by simp) c hc

theorem chunks_sublist {l : List PosIntake} {c : List PosIntake}
    (hc : c ∈ chunks l) : c.Sublist l := by
  have := List.sublist_flatten_of_mem hc
  rwa [chunks_flatten] at this

theorem emit_members {g : List PosIntake} (hg : g ≠ []) :
    (emit g).members = g.map (·.intake) := by
  match g with
  | [] => exact absurd rfl hg
  | [p] => rfl
  | p :: q :: t => rfl

/-- Two equally positioned elements of a scanned list always end up in
the same group: the scan only closes a group at a gap of at least the
threshold, and in a position-sorted list everything between two equal
positions has that same position. -/
theorem clusterGo_same_chunk (rest : List PosIntake) :
    ∀ grp : List PosIntake, grp ≠ [] →
    (grp.reverse ++ rest).Pairwise (fun a b => a.topPx ≤ b.topPx) →
    ∀ p q : PosIntake, p ∈ grp.reverse ++ rest → q ∈ grp.reverse ++ rest →
    p.topPx = q.topPx →
    ∃ c ∈ clusterGo grp rest, p ∈ c ∧ q ∈ c := by
  induction rest with
  | nil =>
    intro grp hgrp _ p q hp hq _
    rw [List.append_nil] at hp hq
    exact ⟨grp.reverse, by simp [clusterGo], hp, hq⟩
  | cons x rest ih =>
    intro grp hgrp hsort p q hp hq hpq
    cases grp with
    | nil => exact absurd rfl hgrp
    | cons last g =>
      by_cases habs : x.topPx - last.topPx < CLUSTER_THRESHOLD_PX
      · have hre : (x :: last :: g).reverse ++ rest
            = (last :: g).reverse ++ x :: rest := by
          rw [List.reverse_cons, List.append_assoc]; rfl
        simp only [clusterGo, habs, if_true]
        refine ih (x :: last :: g) (by simp) ?_ p q ?_ ?_ hpq
        · rw [hre]; exact hsort
        · rw [hre]; exact hp
        · rw [hre]; exact hq
      · simp only [clusterGo, habs, if_false]
        have hthr : CLUSTER_THRESHOLD_PX ≤ x.topPx - last.topPx := not_lt.mp habs
        have hpos : (0 : ℚ) < CLUSTER_THRESHOLD_PX := by
          norm_num [CLUSTER_THRESHOLD_PX]
        obtain ⟨hs1, hs2, hcross⟩ := List.pairwise_append.mp hsort
        have hlast : ∀ a ∈ (last :: g).reverse, a.topPx ≤ last.topPx := by
          intro a ha
          rw [List.reverse_cons] at ha
          rcases List.mem_append.mp ha with ha' | ha'
          · have h1 := hs1
            rw [List.reverse_cons] at h1
            obtain ⟨_, _, hcr⟩ := List.pairwise_append.mp h1
            exact hcr a ha' last (List.mem_singleton_self last)
          · rw [List.mem_singleton.mp ha']
        have hx : ∀ b ∈ x :: rest, x.topPx ≤ b.topPx := by
          intro b hb
          rcases List.mem_cons.mp hb with rfl | hb'
          · exact le_refl _
          · exact (List.pairwise_cons.mp hs2).1 b hb'
        have habsurd : ∀ a ∈ (last :: g).reverse, ∀ b ∈ x :: rest,
            a.topPx ≠ b.topPx := by
          intro a ha b hb heq
          have h1 := hlast a ha
          have h2 := hx b hb
          have : a.topPx + CLUSTER_THRESHOLD_PX ≤ b.topPx := by linarith
          linarith [heq ▸ this]
        rcases List.mem_append.mp hp with hp1 | hp2
        · rcases List.mem_append.mp hq with hq1 | hq2
          · exact ⟨(last :: g).reverse, List.mem_cons_self _ _, hp1, hq1⟩
          · exact absurd hpq (habsurd p hp1 q hq2)
        · rcases List.mem_append.mp hq with hq1 | hq2
          · exact absurd hpq.symm (habsurd q hq1 p hp2)
          · obtain ⟨c, hc, hpc, hqc⟩ :=
              ih [x] (by simp) (by simpa using hs2) p q
                (by simpa using hp2) (by simpa using hq2) hpq
            exact ⟨c, List.mem_cons_of_mem _ hc, hpc, hqc⟩

/-! ## Concrete evaluation helpers -/

theorem parseFloatQ_eval (s : String) (neg : Bool) (ip fp fl : ℕ)
    (h : parseParts s = some (neg, ip, fp, fl)) :
    parseFloatQ s
      = some (if neg then -((ip : ℚ) + (fp : ℚ) / (10 ^ fl : ℚ))
              else ((ip : ℚ) + (fp : ℚ) / (10 ^ fl : ℚ))) := by
  unfold parseFloatQ
  rw [h]

theorem parseFloatQ_one : parseFloatQ "1" = some 1 := by
  rw [parseFloatQ_eval "1" false 1 0 0 (by decide)]
  norm_num

theorem parseFloatQ_two : parseFloatQ "2" = some 2 := by
  rw [parseFloatQ_eval "2" false 2 0 0 (by decide)]
  norm_num

theorem toMg_not_ml (d : Option String) (u : String) (h : u ≠ "ml") :
    toMg d u = (d.bind parseFloatQ).getD 0 := by
  unfold toMg
  rw [if_neg h]

/-- One fully evaluated run of the clusterer: two AH intakes one minute
apart merge into a single cluster. -/
theorem computeClusters_example : computeClusters [evA, evB] "AH" 1
    = [.cluster [evB, evA] (1439/2) 3 ⟨0, 12, 1, 0⟩] := by
  have hsort : (sortDescTimestamp ([evA, evB].filter
      (fun i => i.patientId == "AH"))).map
      (fun i => PosIntake.mk i (getTimeTop 1 i.timestamp))
      = [PosIntake.mk evB (getTimeTop 1 evB.timestamp),
         PosIntake.mk evA (getTimeTop 1 evA.timestamp)] := by
    have h : sortDescTimestamp ([evA, evB].filter (fun i => i.patientId == "AH"))
        = [evB, evA] := by decide
    rw [h]
    rfl
  unfold computeClusters
  rw [hsort]
  have hgap : getTimeTop 1 evA.timestamp - getTimeTop 1 evB.timestamp
      < CLUSTER_THRESHOLD_PX := by
    norm_num [getTimeTop, minutesOfDay, BASE_DAY_HEIGHT_PX, CLUSTER_THRESHOLD_PX, evA, evB]
  simp only [chunks, clusterGo, hgap, if_true, List.reverse_cons, List.reverse_nil,
    List.nil_append, List.cons_append, List.map_cons, List.map_nil, emit]
  norm_num [getTimeTop, minutesOfDay, BASE_DAY_HEIGHT_PX, evA, evB,
    toMg_not_ml _ _ (by decide : ("mg":String) ≠ "ml"), parseFloatQ_one, parseFloatQ_two]

/-- The same two intakes with exchanged time slots: the cluster members
arrive in the opposite scan order. -/
theorem computeClusters_example_swap : computeClusters [evASwap, evBSwap] "AH" 1
    = [.cluster [evASwap, evBSwap] (1439/2) 3 ⟨0, 12, 1, 0⟩] := by
  have hsort : (sortDescTimestamp ([evASwap, evBSwap].filter
      (fun i => i.patientId == "AH"))).map
      (fun i => PosIntake.mk i (getTimeTop 1 i.timestamp))
      = [PosIntake.mk evASwap (getTimeTop 1 evASwap.timestamp),
         PosIntake.mk evBSwap (getTimeTop 1 evBSwap.timestamp)] := by
    have h : sortDescTimestamp ([evASwap, evBSwap].filter (fun i => i.patientId == "AH"))
        = [evASwap, evBSwap] := by decide
    rw [h]
    rfl
  unfold computeClusters
  rw [hsort]
  have hgap : getTimeTop 1 evBSwap.timestamp - getTimeTop 1 evASwap.timestamp
      < CLUSTER_THRESHOLD_PX := by
    norm_num [getTimeTop, minutesOfDay, BASE_DAY_HEIGHT_PX, CLUSTER_THRESHOLD_PX,
      evASwap, evBSwap]
  simp only [chunks, clusterGo, hgap, if_true, List.reverse_cons, List.reverse_nil,
    List.nil_append, List.cons_append, List.map_cons, List.map_nil, emit]
  norm_num [getTimeTop, minutesOfDay, BASE_DAY_HEIGHT_PX, evASwap, evBSwap,
    toMg_not_ml _ _ (by decide : ("mg":String) ≠ "ml"), parseFloatQ_one, parseFloatQ_two]

/-- A LOST-subtype intake on lane AH is swept into a cluster together
with a plain AH intake one minute away. -/
theorem computeClusters_example_lost : computeClusters [evLost, evNear] "AH" 1
    = [.cluster [evNear, evLost] (1439/2) 3 ⟨0, 12, 1, 0⟩] := by
  have hsort : (sortDescTimestamp ([evLost, evNear].filter
      (fun i => i.patientId == "AH"))).map
      (fun i => PosIntake.mk i (getTimeTop 1 i.timestamp))
      = [PosIntake.mk evNear (getTimeTop 1 evNear.timestamp),
         PosIntake.mk evLost (getTimeTop 1 evLost.timestamp)] := by
    have h : sortDescTimestamp ([evLost, evNear].filter (fun i => i.patientId == "AH"))
        = [evNear, evLost] := by decide
    rw [h]
    rfl
  unfold computeClusters
  rw [hsort]
  have hgap : getTimeTop 1 evLost.timestamp - getTimeTop 1 evNear.timestamp
      < CLUSTER_THRESHOLD_PX := by
    norm_num [getTimeTop, minutesOfDay, BASE_DAY_HEIGHT_PX, CLUSTER_THRESHOLD_PX,
      evLost, evNear]
  simp only [chunks, clusterGo, hgap, if_true, List.reverse_cons, List.reverse_nil,
    List.nil_append, List.cons_append, List.map_cons, List.map_nil, emit]
  norm_num [getTimeTop, minutesOfDay, BASE_DAY_HEIGHT_PX, evLost, evNear,
    toMg_not_ml _ _ (by decide : ("mg":String) ≠ "ml"), parseFloatQ_one, parseFloatQ_two]

/-! ## Lemmas about the layout relaxation -/

theorem fwdFrom_chain (xs : List ℚ) :
    ∀ prev : ℚ, List.Chain (fun a b => a + PANEL_H ≤ b) prev (fwdFrom prev xs) := by
  induction xs with
  | nil => intro prev; exact List.Chain.nil
  | cons x xs ih =>
    intro prev
    refine List.Chain.cons ?_ (ih _)
    by_cases h : 0 < prev + PANEL_H - x
    · simp only [h, if_true]; linarith
    · simp only [h, if_false]; linarith

theorem fwdFrom_length (xs : List ℚ) :
    ∀ prev : ℚ, (fwdFrom prev xs).length = xs.length := by
  induction xs with
  | nil => intro _; rfl
  | cons x xs ih => intro prev; simpa [fwdFrom] using ih _

/-- After the forward sweep all adjacent pairs are at least `PANEL_H`
apart (so the backward sweep finds nothing to do). -/
theorem pushApartForward_gaps (l : List ℚ) : GapsGE PANEL_H (pushApartForward l) := by
  cases l with
  | nil => simp [pushApartForward, GapsGE]
  | cons x xs => exact fwdFrom_chain xs x

theorem pushApartForward_length (l : List ℚ) :
    (pushApartForward l).length = l.length := by
  cases l with
  | nil => rfl
  | cons x xs => simpa [pushApartForward] using fwdFrom_length xs x

/-- The backward sweep is the identity on a list whose adjacent gaps are
already at least `PANEL_H`. -/
theorem pushApartBackward_of_gaps :
    ∀ {l : List ℚ}, GapsGE PANEL_H l → pushApartBackward l = l := by
  intro l
  induction l with
  | nil => intro _; rfl
  | cons x xs ih =>
    intro h
    cases xs with
    | nil => rfl
    | cons y ys =>
      have h1 : x + PANEL_H ≤ y := (List.chain'_cons.mp h).1
      have h2 : GapsGE PANEL_H (y :: ys) := (List.chain'_cons.mp h).2
      simp only [pushApartBackward, ih h2]
      have hno : ¬ 0 < x + PANEL_H - y := by linarith
      simp [hno]

/-- The damped pull keeps a `0.92 × PANEL_H` separation when the true
positions are ascending. -/
theorem pullToward_gaps :
    ∀ dots panels : List ℚ, dots.Chain' (· ≤ ·) → GapsGE PANEL_H panels →
      dots.length = panels.length →
      GapsGE (PANEL_H * (92 / 100)) (pullToward dots panels) := by
  intro dots
  induction dots with
  | nil => intro panels _ _ _; simp [pullToward, GapsGE]
  | cons d dots ih =>
    intro panels hd hp hlen
    cases panels with
    | nil => simp [pullToward, GapsGE]
    | cons p panels =>
      cases dots with
      | nil =>
        cases panels with
        | nil => simp [pullToward, GapsGE]
        | cons p2 ps => simp at hlen
      | cons d2 dots2 =>
        cases panels with
        | nil => simp at hlen
        | cons p2 panels2 =>
          have hd' := List.chain'_cons.mp hd
          have hp' := List.chain'_cons.mp hp
          have hlen' : (d2 :: dots2).length = (p2 :: panels2).length := by
            simpa using hlen
          have tail := ih (p2 :: panels2) hd'.2 hp'.2 hlen'
          simp only [pullToward, List.zipWith_cons_cons] at tail ⊢
          refine List.chain'_cons.mpr ⟨?_, tail⟩
          have h1 := hd'.1
          have h2 := hp'.1
          linarith

/-- One relaxation pass simplifies: the backward sweep never fires after
the forward sweep. -/
theorem relaxPass_eq (dots panels : List ℚ) :
    relaxPass dots panels = pullToward dots (pushApartForward panels) := by
  unfold relaxPass
  rw [pushApartBackward_of_gaps (pushApartForward_gaps panels)]

theorem relaxPass_length (dots panels : List ℚ)
    (h : dots.length = panels.length) :
    (relaxPass dots panels).length = panels.length := by
  rw [relaxPass_eq]
  unfold pullToward
  rw [List.length_zipWith, pushApartForward_length, h, min_self]

/-- After any relaxation pass on matching-length state, all adjacent
display gaps are at least `0.92 × PANEL_H`. -/
theorem relaxPass_gaps (dots panels : List ℚ) (hd : dots.Chain' (· ≤ ·))
    (hlen : dots.length = panels.length) :
    GapsGE (PANEL_H * (92 / 100)) (relaxPass dots panels) := by
  rw [relaxPass_eq]
  exact pullToward_gaps dots _ hd (pushApartForward_gaps panels)
    (by rw [pushApartForward_length, hlen])

theorem iterate_relaxPass_length (dots : List ℚ) (seed : List ℚ)
    (h : dots.length = seed.length) :
    ∀ k : ℕ, ((relaxPass dots)^[k] seed).length = seed.length := by
  intro k
  induction k with
  | zero => rfl
  | succ k ih =>
    rw [Function.iterate_succ_apply', relaxPass_length dots _ (by rw [ih, h]), ih]

theorem solveLayout_cons_cons (a b : ℚ) (l : List ℚ) :
    solveLayout (a :: b :: l) =
      (relaxPass (a :: b :: l))^[40]
        ((List.range (a :: b :: l).length).map
          (fun (idx : ℕ) => (a :: b :: l).sum / ((a :: b :: l).length : ℚ)
            - (((a :: b :: l).length : ℚ) - 1) * PANEL_H / 2
            + (idx : ℚ) * PANEL_H)) := rfl

/-- Any positive number of relaxation passes ends with a pass, so the
final state satisfies the damped separation bound. -/
theorem iterate_relaxPass_gaps (dots seed : List ℚ) (hd : dots.Chain' (· ≤ ·))
    (hlen : dots.length = seed.length) (k : ℕ) (hk : 1 ≤ k) :
    GapsGE (PANEL_H * (92 / 100)) ((relaxPass dots)^[k] seed) := by
  cases k with
  | zero => omega
  | succ k =>
    rw [Function.iterate_succ_apply']
    exact relaxPass_gaps dots _ hd
      (by rw [iterate_relaxPass_length dots seed hlen k, hlen])

/-- Core separation bound: on an ascending input the solver leaves all
adjacent pairs at least `0.92 × PANEL_H` apart. -/
theorem solveLayout_gapsGE (dots : List ℚ) (hd : dots.Chain' (· ≤ ·)) :
    GapsGE (PANEL_H * (92 / 100)) (solveLayout dots) := by
  cases dots with
  | nil => simp [solveLayout, GapsGE]
  | cons a rest =>
    cases rest with
    | nil => simp [solveLayout, GapsGE]
    | cons b l =>
      rw [solveLayout_cons_cons]
      generalize hgen : (List.range (a :: b :: l).length).map
          (fun (idx : ℕ) => (a :: b :: l).sum / ((a :: b :: l).length : ℚ)
            - (((a :: b :: l).length : ℚ) - 1) * PANEL_H / 2
            + (idx : ℚ) * PANEL_H) = seed
      have hlen : (a :: b :: l).length = seed.length := by
        rw [← hgen, List.length_map, List.length_range]
      have hone : (1 : ℕ) ≤ 40 := by norm_num
      generalize hds : a :: b :: l = ds at hd hlen ⊢
      generalize hks : (40 : ℕ) = k at hone ⊢
      exact iterate_relaxPass_gaps ds seed hd hlen k hone

/-- Ordered gaps imply the absolute-separation form. -/
theorem GapsGE.sepGE {s : ℚ} (hs : 0 ≤ s) :
    ∀ {l : List ℚ}, GapsGE s l → SepGE s l := by
  intro l
  induction l with
  | nil => intro _; simp [SepGE]
  | cons x xs ih =>
    intro h
    cases xs with
    | nil => simp [SepGE]
    | cons y ys =>
      have h1 := (List.chain'_cons.mp h).1
      have h2 := ih (List.chain'_cons.mp h).2
      exact List.chain'_cons.mpr ⟨by rw [abs_of_nonneg (by linarith)]; linarith, h2⟩


/-! ## Boolean mirrors of the gap predicates -/

theorem gapsGEb_iff (s : ℚ) : ∀ l : List ℚ, gapsGEb s l = true ↔ GapsGE s l := by
  intro l
  induction l with
  | nil => simp [gapsGEb, GapsGE]
  | cons a t ih =>
    cases t with
    | nil => simp [gapsGEb, GapsGE]
    | cons b t =>
      rw [GapsGE, List.chain'_cons]
      simp only [gapsGEb, Bool.and_eq_true, decide_eq_true_eq]
      rw [ih]
      rfl

theorem sepGEb_iff (s : ℚ) : ∀ l : List ℚ, sepGEb s l = true ↔ SepGE s l := by
  intro l
  induction l with
  | nil => simp [sepGEb, SepGE]
  | cons a t ih =>
    cases t with
    | nil => simp [sepGEb, SepGE]
    | cons b t =>
      rw [SepGE, List.chain'_cons]
      simp only [sepGEb, Bool.and_eq_true, decide_eq_true_eq]
      rw [ih]
      rfl

/-- With both true positions at 0 and an incoming gap of at most
`PANEL_H`, one relaxation pass lands on an exact gap of `828/25`
(the damped pull shrinks the restored `PANEL_H` gap by 8 percent). -/
theorem relaxPass_zero_pair (p1 p2 : ℚ) (h : p2 - p1 ≤ PANEL_H) :
    relaxPass [0, 0] [p1, p2] = [23/25 * p1, 23/25 * p1 + 828/25] := by
  have hfwd : pushApartForward [p1, p2]
      = [p1, if 0 < p1 + PANEL_H - p2 then p2 + (p1 + PANEL_H - p2) else p2] := rfl
  have hpull : ∀ q1 q2 : ℚ, pullToward [0, 0] [q1, q2]
      = [q1 + (0 - q1) * (8/100), q2 + (0 - q2) * (8/100)] := fun q1 q2 => rfl
  rw [relaxPass_eq, hfwd]
  by_cases hc : 0 < p1 + PANEL_H - p2
  · rw [if_pos hc, hpull]
    simp only [List.cons.injEq, and_true]
    norm_num [PANEL_H]
    constructor <;> ring
  · rw [if_neg hc, hpull]
    have hp : p2 = p1 + PANEL_H := by
      have h36 : PANEL_H = 36 := rfl
      rw [h36] at h hc ⊢
      push_neg at hc
      linarith
    subst hp
    simp only [List.cons.injEq, and_true]
    norm_num [PANEL_H]
    constructor <;> ring

theorem iterate_relaxPass_zero (k : ℕ) :
    ∃ p1 p2 : ℚ, (relaxPass [0, 0])^[k] [-18, 18] = [p1, p2]
      ∧ p2 - p1 ≤ PANEL_H ∧ (1 ≤ k → p2 - p1 = 828/25) := by
  induction k with
  | zero =>
    exact ⟨-18, 18, rfl, by norm_num [PANEL_H], by omega⟩
  | succ k ih =>
    obtain ⟨p1, p2, heq, hle, _⟩ := ih
    rw [Function.iterate_succ_apply', heq, relaxPass_zero_pair p1 p2 hle]
    exact ⟨23/25 * p1, 23/25 * p1 + 828/25, rfl, by norm_num [PANEL_H],
      fun _ => by ring⟩

theorem solveLayout_zero_pair :
    ∃ p1 p2 : ℚ, solveLayout [0, 0] = [p1, p2] ∧ p2 - p1 = 828/25 := by
  have hseed : solveLayout [0, 0] = (relaxPass [0, 0])^[40] [-18, 18] := by
    rw [solveLayout_cons_cons]
    congr 1
    norm_num [List.range_succ, PANEL_H]
  obtain ⟨p1, p2, heq, _, hgap⟩ := iterate_relaxPass_zero 40
  exact ⟨p1, p2, by rw [hseed, heq], hgap (by norm_num)⟩

/-! ## Characterization of the clusterer output -/

theorem computeClusters_members_flatten (day : List Intake) (pid : String) (z : ℚ) :
    ((computeClusters day pid z).map ClusterItem.members).flatten
      = sortDescTimestamp (day.filter (fun i => i.patientId == pid)) := by
  unfold computeClusters
  rw [List.map_map]
  have h1 : ∀ g ∈ chunks ((sortDescTimestamp (day.filter
        (fun i => i.patientId == pid))).map
        (fun i => PosIntake.mk i (getTimeTop z i.timestamp))),
      (ClusterItem.members ∘ emit) g = g.map (·.intake) := fun g hg =>
    emit_members (chunks_ne_nil hg)
  rw [List.map_congr_left h1, ← List.map_flatten, chunks_flatten, List.map_map]
  exact List.map_id _

theorem sortDescTimestamp_pairwise (l : List Intake) :
    (sortDescTimestamp l).Pairwise tsDesc :=
  List.sorted_insertionSort tsDesc l

theorem withPos_pairwise (l : List Intake) (z : ℚ) :
    ((sortDescTimestamp l).map (fun i => PosIntake.mk i (getTimeTop z i.timestamp))).Pairwise
      (fun p q => tsDesc p.intake q.intake) := by
  rw [List.pairwise_map]
  exact sortDescTimestamp_pairwise l

/-- Inversion for a cluster item of `computeClusters`: its fields are the
mean position, the milligram sum, and the newest member timestamp, and
its members are at least two, listed newest first. -/
theorem mem_computeClusters_cluster {day : List Intake} {pid : String} {z : ℚ}
    {is : List Intake} {top mg : ℚ} {last : Timestamp}
    (h : ClusterItem.cluster is top mg last ∈ computeClusters day pid z) :
    top = (is.map (fun i => getTimeTop z i.timestamp)).sum / (is.length : ℚ)
    ∧ mg = (is.map (fun i => toMg i.dosage i.unit)).sum
    ∧ last ∈ is.map (·.timestamp)
    ∧ (∀ i ∈ is, i.timestamp.toSeconds ≤ last.toSeconds)
    ∧ 2 ≤ is.length
    ∧ is.Pairwise tsDesc := by
  unfold computeClusters at h
  obtain ⟨g, hg, hemit⟩ := List.mem_map.mp h
  have hne : g ≠ [] := chunks_ne_nil hg
  have hsub := chunks_sublist hg
  have hmemW : ∀ r ∈ g, r.topPx = getTimeTop z r.intake.timestamp := by
    intro r hr
    have := hsub.subset hr
    obtain ⟨i, _, rfl⟩ := List.mem_map.mp this
    rfl
  have hpw : g.Pairwise (fun p q => tsDesc p.intake q.intake) :=
    (withPos_pairwise _ z).sublist hsub
  cases g with
  | nil => exact absurd rfl hne
  | cons p g2 =>
    cases g2 with
    | nil => exact absurd hemit (by simp [emit])
    | cons q t =>
      simp only [emit] at hemit
      injection hemit with h1 h2 h3 h4
      subst h1 h2 h3 h4
      have hp := hmemW p (by simp)
      have hq := hmemW q (by simp)
      have ht : t.map (·.topPx) = t.map (fun r => getTimeTop z r.intake.timestamp) :=
        List.map_congr_left (fun r hr => hmemW r (by simp [hr]))
      refine ⟨?_, ?_, ?_, ?_, ?_, ?_⟩
      · simp only [List.map_cons, List.map_map, List.sum_cons,
          List.length_cons, List.length_map, hp, hq]
        rw [ht]
        rfl
      · simp only [List.map_cons, List.map_map, List.sum_cons]
        rfl
      · simp
      · intro i hi
        simp only [List.map_cons, List.mem_cons, List.mem_map] at hi
        have hfacts := List.pairwise_cons.mp hpw
        rcases hi with rfl | rfl | ⟨r, hr, rfl⟩
        · exact le_refl _
        · exact hfacts.1 q (by simp)
        · exact hfacts.1 r (by simp [hr])
      · simp
      · exact List.pairwise_map.mpr hpw

/-! ## Characterization of the day grouping -/

theorem addIntake_date (groups : List DayBucket) (i : Intake) (d : Int) :
    (∃ b ∈ addIntake groups i, b.date = d)
      ↔ (∃ b ∈ groups, b.date = d) ∨ d = i.timestamp.day := by
  unfold addIntake
  by_cases hany : groups.any (fun b => b.date == i.timestamp.day)
  · rw [if_pos hany]
    constructor
    · rintro ⟨b, hb, rfl⟩
      obtain ⟨b0, hb0, rfl⟩ := List.mem_map.mp hb
      by_cases h0 : b0.date == i.timestamp.day
      · exact Or.inl ⟨b0, hb0, by simp [h0]⟩
      · exact Or.inl ⟨b0, hb0, by simp [h0]⟩
    · rintro (⟨b, hb, rfl⟩ | rfl)
      · refine ⟨if b.date == i.timestamp.day then ⟨b.date, b.intakes ++ [i]⟩ else b,
          List.mem_map_of_mem _ hb, ?_⟩
        by_cases h0 : b.date == i.timestamp.day <;> simp [h0]
      · obtain ⟨b, hb, hbd⟩ := List.any_eq_true.mp hany
        refine ⟨if b.date == i.timestamp.day then ⟨b.date, b.intakes ++ [i]⟩ else b,
          List.mem_map_of_mem _ hb, ?_⟩
        have hd : b.date = i.timestamp.day := by simpa using hbd
        by_cases h0 : b.date == i.timestamp.day <;> simp [h0, hd]
  · rw [if_neg hany]
    constructor
    · rintro ⟨b, hb, rfl⟩
      rcases List.mem_append.mp hb with hb1 | hb2
      · exact Or.inl ⟨b, hb1, rfl⟩
      · simp only [List.mem_singleton] at hb2
        subst hb2
        exact Or.inr rfl
    · rintro (⟨b, hb, rfl⟩ | rfl)
      · exact ⟨b, List.mem_append_left _ hb, rfl⟩
      · exact ⟨⟨i.timestamp.day, [i]⟩, List.mem_append_right _ (by simp), rfl⟩

theorem foldl_addIntake_date (l : List Intake) :
    ∀ (init : List DayBucket) (d : Int),
      (∃ b ∈ l.foldl addIntake init, b.date = d)
        ↔ (∃ b ∈ init, b.date = d) ∨ ∃ i ∈ l, i.timestamp.day = d := by
  induction l with
  | nil => simp
  | cons i l ih =>
    intro init d
    rw [List.foldl_cons, ih (addIntake init i) d, addIntake_date]
    simp only [List.mem_cons, exists_eq_or_imp]
    constructor
    · rintro ((h | rfl) | h)
      · exact Or.inl h
      · exact Or.inr (Or.inl rfl)
      · exact Or.inr (Or.inr h)
    · rintro (h | h | h)
      · exact Or.inl (Or.inl h)
      · exact Or.inl (Or.inr h.symm)
      · exact Or.inr h

theorem groupedByDay_date (intakes : List Intake) (today : Int) (d : Int) :
    (∃ b ∈ groupedByDay intakes today, b.date = d)
      ↔ d = today ∨ ∃ i ∈ intakes, i.timestamp.day = d := by
  unfold groupedByDay
  have hmem : ∀ b : DayBucket,
      b ∈ List.insertionSort dateDesc (intakes.foldl addIntake [⟨today, []⟩])
        ↔ b ∈ intakes.foldl addIntake [⟨today, []⟩] := fun b =>
    (List.perm_insertionSort dateDesc _).mem_iff
  simp only [hmem]
  rw [foldl_addIntake_date]
  constructor
  · rintro (⟨b, hb, rfl⟩ | h)
    · simp only [List.mem_singleton] at hb
      subst hb
      exact Or.inl rfl
    · exact Or.inr h
  · rintro (rfl | h)
    · exact Or.inl ⟨⟨d, []⟩, by simp, rfl⟩
    · exact Or.inr h

/-! ## Claim theorems -/

/-- Claim C1, counterexample: for the sorted two-item input `[0, 0]`
(n = 2), the solved layout has an adjacent pair separated by less than
`PANEL_H − 1` — far beyond floating tolerance — so the claimed
`≥ minSeparation − ε` invariant fails. -/
theorem claim_C1_counterexample :
    List.Chain' (· ≤ ·) ([0, 0] : List ℚ) ∧ 2 ≤ ([0, 0] : List ℚ).length
      ∧ ¬ SepGE (PANEL_H - 1) (solveLayout [0, 0]) := by
  refine ⟨List.chain'_pair.mpr le_rfl, by norm_num, ?_⟩
  obtain ⟨p1, p2, heq, hgap⟩ := solveLayout_zero_pair
  rw [heq]
  intro hsep
  have hsep2 : List.Chain' (fun a b => PANEL_H - 1 ≤ |b - a|) [p1, p2] := hsep
  have h1 := List.chain'_pair.mp hsep2
  rw [hgap, abs_of_nonneg (by norm_num : (0:ℚ) ≤ 828/25)] at h1
  norm_num [PANEL_H] at h1

/-- Claim C1 (amended): for every input list pre-sorted by true ordinate
ascending with n ≥ 2, the positions returned by `solveLayout` after the
40 relaxation passes satisfy, for every adjacent pair,
`|display_i − display_(i-1)| ≥ (1 − damping) × minSeparation
= 0.92 × PANEL_H = 33.12`; the undamped `minSeparation − ε` bound does
not hold because each pass ends with the damped pull after the overlap
correction. -/
theorem claim_C1_amended (dots : List ℚ) (hsorted : dots.Chain' (· ≤ ·))
    (_hlen : 2 ≤ dots.length) :
    SepGE (PANEL_H * (92 / 100)) (solveLayout dots) :=
  GapsGE.sepGE (by norm_num [PANEL_H]) (solveLayout_gapsGE dots hsorted)

/-- Witness for C1 (amended) at the concrete input `[0, 50]`. -/
theorem claim_C1_witness : SepGE (PANEL_H * (92 / 100)) (solveLayout [0, 50]) := by
  generalize hds : ([0, 50] : List ℚ) = ds
  refine claim_C1_amended ds ?_ ?_
  · rw [← hds]
    exact List.chain'_pair.mpr (by norm_num)
  · rw [← hds]
    norm_num

/-- Claim C2, counterexample: with a single event on day 0 and `today
= 2`, the grouping produces buckets for days 2 and 0 only — the empty
day 1 between the earliest event day and today gets no bucket. -/
theorem claim_C2_counterexample :
    evDay0.timestamp.day = 0
    ∧ (groupedByDay [evDay0] 2).map (fun b => b.date) = [2, 0]
    ∧ (groupedByDay [evDay0] 2).all (fun b => !(b.date == 1)) = true := by decide

/-- Claim C2 (amended): the day-grouping output contains a bucket for a
day `d` exactly when `d` is today or some event falls on `d`; a day with
no events does not appear (except today, whose bucket may be empty). -/
theorem claim_C2_amended (intakes : List Intake) (today : Int) (d : Int) :
    ((groupedByDay intakes today).any (fun b => b.date == d))
      = ((today == d) || intakes.any (fun i => i.timestamp.day == d)) := by
  rw [Bool.eq_iff_iff]
  simp only [List.any_eq_true, beq_iff_eq, Bool.or_eq_true]
  rw [groupedByDay_date]
  constructor
  · rintro (rfl | h)
    · exact Or.inl rfl
    · exact Or.inr h
  · rintro (rfl | h)
    · exact Or.inl rfl
    · exact Or.inr h

/-- Claim C4, counterexample: going from zoom 1× to 2× leaves the tick
interval unchanged at 15 minutes; it is not halved. -/
theorem claim_C4_counterexample :
    (tickPlan 1).1 = 15 ∧ (tickPlan 2).1 = 15
      ∧ ¬ (tickPlan 2).1 = (tickPlan 1).1 / 2 := by
  norm_num [tickPlan]

/-- Claim C4 (amended): for the same timestamp, changing the zoom level
from 1× to 2× exactly doubles the computed ordinate and halves the label
interval (120 → 60) chosen by the zoom table, while the tick interval is
unchanged (15 at both zoom levels). -/
theorem claim_C4_amended (t : Timestamp) :
    getTimeTop 2 t = 2 * getTimeTop 1 t
    ∧ (tickPlan 2).1 = (tickPlan 1).1
    ∧ (tickPlan 1).2 = 2 * (tickPlan 2).2 := by
  refine ⟨?_, by norm_num [tickPlan], by norm_num [tickPlan]⟩
  unfold getTimeTop
  ring

/-- Claim C5, counterexample: two valid timestamps in the same day and
the same minute, 10:00:00 earlier than 10:00:30, get the same ordinate,
so the ordinate is not strictly decreasing in time-of-day. -/
theorem claim_C5_counterexample :
    (⟨0, 10, 0, 0⟩ : Timestamp).toSeconds < (⟨0, 10, 0, 30⟩ : Timestamp).toSeconds
    ∧ (⟨0, 10, 0, 0⟩ : Timestamp).day = (⟨0, 10, 0, 30⟩ : Timestamp).day
    ∧ (⟨0, 10, 0, 0⟩ : Timestamp).Valid ∧ (⟨0, 10, 0, 30⟩ : Timestamp).Valid
    ∧ ¬ (getTimeTop 1 ⟨0, 10, 0, 30⟩ < getTimeTop 1 ⟨0, 10, 0, 0⟩) := by
  refine ⟨by decide, rfl, by decide, by decide, ?_⟩
  norm_num [getTimeTop, minutesOfDay, BASE_DAY_HEIGHT_PX]

/-- Claim C5 (amended): the mapping computes `minutesOfDay = hour×60 +
minute` and returns `(1440 − minutesOfDay) × zoom`; consequently, for
every zoom z > 0 and timestamps t1, t2 with the minute-of-day of t1
strictly smaller, `ordinate(t1, z) > ordinate(t2, z)`.  Timestamps that
differ only in seconds share one ordinate, so strictness holds per
minute, not per instant. -/
theorem claim_C5_amended (z : ℚ) (t1 t2 : Timestamp) (hz : 0 < z)
    (hlt : minutesOfDay t1 < minutesOfDay t2) :
    getTimeTop z t1 = (1440 - (minutesOfDay t1 : ℚ)) * z
    ∧ getTimeTop z t2 < getTimeTop z t1 := by
  constructor
  · rfl
  · unfold getTimeTop BASE_DAY_HEIGHT_PX
    have h1 : (minutesOfDay t1 : ℚ) < (minutesOfDay t2 : ℚ) := by exact_mod_cast hlt
    have h2 : (1440 : ℚ) - minutesOfDay t2 < 1440 - minutesOfDay t1 := by linarith
    exact mul_lt_mul_of_pos_right h2 hz

/-- Witness for C5 (amended) at zoom 1 with 12:00 and 12:01. -/
theorem claim_C5_witness :
    getTimeTop 1 ⟨0, 12, 0, 0⟩ = (1440 - (minutesOfDay ⟨0, 12, 0, 0⟩ : ℚ)) * 1
    ∧ getTimeTop 1 ⟨0, 12, 1, 0⟩ < getTimeTop 1 ⟨0, 12, 0, 0⟩ :=
  claim_C5_amended 1 ⟨0, 12, 0, 0⟩ ⟨0, 12, 1, 0⟩ (by norm_num) (by decide)

/-- Claim C3: for every lane within one day, clustering partitions the
input — concatenating the members of the emitted items in scan order
reproduces the sorted lane list (hence every event appears exactly once,
as the flattening is a permutation of the filtered input), and no
emitted cluster has fewer than two members (size-1 groups are singles). -/
theorem claim_C3 (day : List Intake) (pid : String) (z : ℚ) :
    ((computeClusters day pid z).map ClusterItem.members).flatten
        = sortDescTimestamp (day.filter (fun i => i.patientId == pid))
    ∧ (((computeClusters day pid z).map ClusterItem.members).flatten).Perm
        (day.filter (fun i => i.patientId == pid))
    ∧ ∀ item ∈ computeClusters day pid z,
        item.isCluster = true → 2 ≤ item.members.length := by
  refine ⟨computeClusters_members_flatten day pid z, ?_, ?_⟩
  · rw [computeClusters_members_flatten day pid z]
    exact List.perm_insertionSort tsDesc _
  · intro item hitem hcl
    cases item with
    | single i top => simp [ClusterItem.isCluster] at hcl
    | cluster is top mg last =>
      have := (mem_computeClusters_cluster hitem).2.2.2.2.1
      simpa [ClusterItem.members] using this

/-- Witness for C3 at a concrete two-intake day. -/
theorem claim_C3_witness :
    2 ≤ (ClusterItem.cluster [evB, evA] (1439/2) 3 ⟨0, 12, 1, 0⟩).members.length :=
  (claim_C3 [evA, evB] "AH" 1).2.2 _
    (by rw [computeClusters_example]; exact List.mem_singleton_self _) rfl

/-- Claim C6: every emitted cluster carries the arithmetic mean of the
member true ordinates as its representative ordinate, the sum of the
unit-normalized member quantities as its aggregate, and a latest
timestamp that is a member timestamp and bounds all member timestamps
from above. -/
theorem claim_C6 (day : List Intake) (pid : String) (z : ℚ)
    (is : List Intake) (top mg : ℚ) (last : Timestamp)
    (h : ClusterItem.cluster is top mg last ∈ computeClusters day pid z) :
    top = (is.map (fun i => getTimeTop z i.timestamp)).sum / (is.length : ℚ)
    ∧ mg = (is.map (fun i => toMg i.dosage i.unit)).sum
    ∧ last ∈ is.map (·.timestamp)
    ∧ ∀ i ∈ is, i.timestamp.toSeconds ≤ last.toSeconds := by
  obtain ⟨h1, h2, h3, h4, _, _⟩ := mem_computeClusters_cluster h
  exact ⟨h1, h2, h3, h4⟩

/-- Witness for C6 at a concrete two-member cluster. -/
theorem claim_C6_witness :
    (1439/2 : ℚ) = ([evB, evA].map (fun i => getTimeTop 1 i.timestamp)).sum
        / (([evB, evA].length : ℕ) : ℚ)
    ∧ (3 : ℚ) = ([evB, evA].map (fun i => toMg i.dosage i.unit)).sum := by
  have h := claim_C6 [evA, evB] "AH" 1 [evB, evA] (1439/2) 3 ⟨0, 12, 1, 0⟩
    (by rw [computeClusters_example]; exact List.mem_singleton_self _)
  exact ⟨h.1, h.2.1⟩

/-- Claim C7: two same-lane events with identical timestamps always end
up in the same emitted group, because equal timestamps give equal
ordinates, a gap of zero, and the threshold comparison is strict. -/
theorem claim_C7 (day : List Intake) (pid : String) (z : ℚ) (d : Int)
    (hz : 0 ≤ z) (hday : ∀ i ∈ day, i.timestamp.day = d)
    (hval : ∀ i ∈ day, i.timestamp.Valid)
    (e1 e2 : Intake) (h1 : e1 ∈ day) (h2 : e2 ∈ day)
    (hp1 : e1.patientId = pid) (hp2 : e2.patientId = pid)
    (heq : e1.timestamp = e2.timestamp) :
    ∃ item ∈ computeClusters day pid z, e1 ∈ item.members ∧ e2 ∈ item.members := by
  have hsubday : ∀ i ∈ sortDescTimestamp (day.filter (fun j => j.patientId == pid)),
      i ∈ day := by
    intro i hi
    have := (List.perm_insertionSort tsDesc _).mem_iff.mp hi
    exact (List.mem_filter.mp this).1
  have hmono : ∀ a b : Intake, a ∈ day → b ∈ day → tsDesc a b →
      getTimeTop z a.timestamp ≤ getTimeTop z b.timestamp := by
    intro a b ha hb hab
    have hda := hday a ha
    have hdb := hday b hb
    have hva := (hval a ha).2.2
    have hmins : minutesOfDay b.timestamp ≤ minutesOfDay a.timestamp := by
      unfold tsDesc Timestamp.toSeconds at hab
      rw [hda, hdb] at hab
      have hsec : (b.timestamp.hour * 3600 + b.timestamp.minute * 60 + b.timestamp.second : ℕ)
          ≤ (a.timestamp.hour * 3600 + a.timestamp.minute * 60 + a.timestamp.second : ℕ) := by
        exact_mod_cast le_of_add_le_add_left hab
      unfold minutesOfDay
      omega
    unfold getTimeTop BASE_DAY_HEIGHT_PX
    have hq : (minutesOfDay b.timestamp : ℚ) ≤ (minutesOfDay a.timestamp : ℚ) := by
      exact_mod_cast hmins
    exact mul_le_mul_of_nonneg_right (by linarith) hz
  have hpwtop : ((sortDescTimestamp (day.filter (fun j => j.patientId == pid))).map
      (fun i => PosIntake.mk i (getTimeTop z i.timestamp))).Pairwise
      (fun p q => p.topPx ≤ q.topPx) := by
    rw [List.pairwise_map]
    refine List.Pairwise.imp_of_mem ?_ (sortDescTimestamp_pairwise _)
    intro a b ha hb hab
    exact hmono a b (hsubday a ha) (hsubday b hb) hab
  have he1 : e1 ∈ sortDescTimestamp (day.filter (fun j => j.patientId == pid)) := by
    refine (List.perm_insertionSort tsDesc _).mem_iff.mpr ?_
    exact List.mem_filter.mpr ⟨h1, by simp [hp1]⟩
  have he2 : e2 ∈ sortDescTimestamp (day.filter (fun j => j.patientId == pid)) := by
    refine (List.perm_insertionSort tsDesc _).mem_iff.mpr ?_
    exact List.mem_filter.mpr ⟨h2, by simp [hp2]⟩
  have hp1m : PosIntake.mk e1 (getTimeTop z e1.timestamp)
      ∈ (sortDescTimestamp (day.filter (fun j => j.patientId == pid))).map
        (fun i => PosIntake.mk i (getTimeTop z i.timestamp)) :=
    List.mem_map_of_mem _ he1
  have hp2m : PosIntake.mk e2 (getTimeTop z e2.timestamp)
      ∈ (sortDescTimestamp (day.filter (fun j => j.patientId == pid))).map
        (fun i => PosIntake.mk i (getTimeTop z i.timestamp)) :=
    List.mem_map_of_mem _ he2
  have htop : (PosIntake.mk e1 (getTimeTop z e1.timestamp)).topPx
      = (PosIntake.mk e2 (getTimeTop z e2.timestamp)).topPx := by
    simp [heq]
  cases hW : (sortDescTimestamp (day.filter (fun j => j.patientId == pid))).map
      (fun i => PosIntake.mk i (getTimeTop z i.timestamp)) with
  | nil =>
    rw [hW] at hp1m
    simp at hp1m
  | cons w rest =>
    rw [hW] at hp1m hp2m hpwtop
    obtain ⟨c, hc, hpc, hqc⟩ := clusterGo_same_chunk rest [w] (by simp)
      (by simpa using hpwtop) _ _ (by simpa using hp1m) (by simpa using hp2m) htop
    have hcchunks : c ∈ chunks ((sortDescTimestamp (day.filter
        (fun j => j.patientId == pid))).map
        (fun i => PosIntake.mk i (getTimeTop z i.timestamp))) := by
      rw [hW]
      simpa [chunks] using hc
    refine ⟨emit c, ?_, ?_, ?_⟩
    · unfold computeClusters
      exact List.mem_map_of_mem emit hcchunks
    · rw [emit_members (chunks_ne_nil hcchunks)]
      exact List.mem_map_of_mem _ hpc
    · rw [emit_members (chunks_ne_nil hcchunks)]
      exact List.mem_map_of_mem _ hqc

/-- Witness for C7 with two AH intakes sharing the 12:00 timestamp. -/
theorem claim_C7_witness :
    ∃ item ∈ computeClusters [evA, evTwin] "AH" 1,
      evA ∈ item.members ∧ evTwin ∈ item.members :=
  claim_C7 [evA, evTwin] "AH" 1 0 (by norm_num) (by decide) (by decide)
    evA evTwin (by decide) (by decide) rfl rfl rfl

/-- Claim C8, counterexample: two clusters with the same member-id set
(ids a and b) but opposite scan orders produce the keys `"b_a"` and
`"a_b"`, so the expansion key is not a function of the sorted member-id
set. -/
theorem claim_C8_counterexample :
    (computeClusters [evA, evB] "AH" 1).map (fun it => clusterKey it.members)
      = ["b_a"]
    ∧ (computeClusters [evASwap, evBSwap] "AH" 1).map (fun it => clusterKey it.members)
      = ["a_b"]
    ∧ (computeClusters [evA, evB] "AH" 1).map (fun it => it.members.map (·.id))
      = [["b", "a"]]
    ∧ (computeClusters [evASwap, evBSwap] "AH" 1).map (fun it => it.members.map (·.id))
      = [["a", "b"]]
    ∧ (["b", "a"] : List String).Perm ["a", "b"]
    ∧ ("b_a" : String) ≠ "a_b" := by
  refine ⟨?_, ?_, ?_, ?_, List.Perm.swap "a" "b" [], by decide⟩
  · rw [computeClusters_example]
    decide
  · rw [computeClusters_example_swap]
    decide
  · rw [computeClusters_example]
    decide
  · rw [computeClusters_example_swap]
    decide

/-- Claim C8 (amended): the expansion key of a cluster is the
underscore-join of its member ids in member (scan) order — members are
kept newest first — so the key is a function of the ordered id tuple, not
of the sorted member-id set. -/
theorem claim_C8_amended (day : List Intake) (pid : String) (z : ℚ)
    (is : List Intake) (top mg : ℚ) (last : Timestamp)
    (h : ClusterItem.cluster is top mg last ∈ computeClusters day pid z) :
    clusterKey is = String.intercalate "_" (is.map (·.id))
    ∧ is.Pairwise tsDesc :=
  ⟨rfl, (mem_computeClusters_cluster h).2.2.2.2.2⟩

/-- Witness for C8 (amended) at a concrete cluster. -/
theorem claim_C8_witness :
    clusterKey [evB, evA] = String.intercalate "_" ([evB, evA].map (·.id))
    ∧ [evB, evA].Pairwise tsDesc :=
  claim_C8_amended [evA, evB] "AH" 1 [evB, evA] (1439/2) 3 ⟨0, 12, 1, 0⟩
    (by rw [computeClusters_example]; exact List.mem_singleton_self _)

/-- Claim C9: dosage normalization multiplies by exactly 20 for unit
`"ml"`, passes any other unit through unchanged, and maps an unparseable
or missing dosage to 0 — the behaviour the specification describes,
stated as `toMgSpec`. -/
theorem claim_C9 (d : Option String) (u : String) : toMg d u = toMgSpec d u := by
  unfold toMg toMgSpec
  cases hd : d.bind parseFloatQ with
  | none => simp [hd]
  | some v => simp [hd]

/-- Claim C10, counterexample: a subtype-LOST intake on lane AH does not
bypass clustering — it becomes a member of an emitted cluster. -/
theorem claim_C10_counterexample :
    evLost.subtype = "LOST"
    ∧ ∃ item ∈ computeClusters [evLost, evNear] "AH" 1,
        item.isCluster = true ∧ evLost ∈ item.members := by
  refine ⟨rfl, ?_⟩
  rw [computeClusters_example_lost]
  refine ⟨_, List.mem_singleton_self _, rfl, ?_⟩
  simp [ClusterItem.members]

/-- Claim C10 (amended): NO/LOST intakes are rendered individually with
panel position equal to dot position and never get a connector, and an
intake whose patient id differs from a lane never enters that lane
clustering (so patient-NO intakes bypass both lanes); but a LOST intake
whose patient id is a lane id additionally enters that lane clustering,
contrary to the original claim. -/
theorem claim_C10_amended (day : List Intake) (z : ℚ) (pid : String) (e : Intake)
    (hne : e.patientId ≠ pid) :
    (∀ pr ∈ noIntakesRender z day, pr.1 = pr.2)
    ∧ (∀ i : Intake, ∀ dotY panelY : ℚ, isNO i = true → connectorDrawn i dotY panelY = false)
    ∧ (∀ item ∈ computeClusters day pid z, e ∉ item.members) := by
  refine ⟨?_, ?_, ?_⟩
  · intro pr hpr
    obtain ⟨i, _, rfl⟩ := List.mem_map.mp hpr
    rfl
  · intro i dotY panelY hno
    unfold connectorDrawn
    rw [hno]
    simp
  · intro item hit hmem
    have hfl : e ∈ ((computeClusters day pid z).map ClusterItem.members).flatten :=
      List.mem_flatten.mpr ⟨item.members, List.mem_map_of_mem _ hit, hmem⟩
    rw [computeClusters_members_flatten] at hfl
    have hfil : e ∈ day.filter (fun i => i.patientId == pid) :=
      (List.perm_insertionSort tsDesc _).mem_iff.mp hfl
    have := (List.mem_filter.mp hfil).2
    simp only [beq_iff_eq] at this
    exact hne this

/-- Witness for C10 (amended): the LOST intake never gets a connector,
and the NO intake is in no AH cluster. -/
theorem claim_C10_witness :
    connectorDrawn evLost 0 100 = false :=
  (claim_C10_amended [evLost] 1 "AH" evNO (by decide)).2.1 evLost 0 100 (by decide)

end MedTracker
